import Mathlib

/- Verification development for the resume-analyser server (src/server.ts).

   The server is shallowly embedded as follows:
   * JS strings are Lean `String` / `List Char`; `s.replace(/pat/g, '')` is
     `removeAll pat.data s.data` (left-to-right, non-overlapping removal),
     and `s.trim()` is `trimBoth s.data` (over the common whitespace chars).
   * JS numbers are `ℚ`; the backoff only ever computes 3000 · 1.5^k, which
     IEEE doubles represent exactly in this range, so `ℚ` is faithful.
   * The upstream model (`model.generateContent`), the PDF extractor, and
     `JSON.parse` are external collaborators; they enter the embedding as
     function parameters ("oracles"): per-attempt outcomes for the model,
     `String → Except String String` for the extractor, and
     `String → Except String JVal` for the JSON parser.  Thrown JS errors are
     represented by their `.message` string, which is all the server inspects.
   * `await`/promises add no observable behaviour to a single request, so the
     request handler is embedded as a pure function from its inputs and
     collaborator behaviours to an HTTP result plus an effect trace
     (upstream call count, inserted rows). -/

-- ===== §1 JS string primitives =======================================

/-- Whitespace test used by the model of `String.prototype.trim`. -/
def isWsChar (c : Char) : Bool := c = ' ' || c = '\n' || c = '\t' || c = '\r'

/-- Model of JS `s.trim()`: drop whitespace from both ends. -/
def trimBoth (s : List Char) : List Char :=
  ((s.dropWhile isWsChar).reverse.dropWhile isWsChar).reverse

/-- Model of JS `s.includes(pat)`: `pat` occurs contiguously in `s`. -/
def hasSub : List Char → List Char → Bool
  | [], pat => pat.isEmpty
  | s@(_ :: rest), pat => pat.isPrefixOf s || hasSub rest pat

/-- Fuel-driven worker for `removeAll` (fuel keeps the recursion structural,
    so that the kernel can evaluate it). -/
def removeAllFuel (p : List Char) : Nat → List Char → List Char
  | _, [] => []
  | 0, s => s
  | fuel + 1, c :: rest =>
    if p.isPrefixOf (c :: rest) && !p.isEmpty then
      removeAllFuel p fuel ((c :: rest).drop p.length)
    else c :: removeAllFuel p fuel rest

/-- Model of JS `s.replace(/p/g, '')` for a literal pattern `p`: scan left to
    right; on a match drop it and continue after it, else keep the char. -/
def removeAll (p s : List Char) : List Char := removeAllFuel p s.length s

-- ===== §2 Response cleaning (server.ts lines 115-117) ================

/-- The opening code-fence token removed first: `/```json/g`. -/
def fenceTag : List Char := "```json".data

/-- The bare code-fence token removed second: `/```/g`. -/
def fenceMarks : List Char := "```".data

/-- server.ts line 117: `responseText.replace(/```json/g, '').replace(/```/g, '')`. -/
def stripFences (s : List Char) : List Char := removeAll fenceMarks (removeAll fenceTag s)

/-- server.ts lines 115-117: `result.response.text().trim()` followed by the
    two fence-stripping replaces. -/
def pipelineProcess (s : List Char) : List Char := stripFences (trimBoth s)

/-- A model response consisting of `j` wrapped in markdown code-fence
    markers, as in C7: ```` ```json ... ``` ````. -/
def fenced (j : List Char) : List Char := fenceTag ++ j ++ fenceMarks

-- ===== §3 Retry client (server.ts lines 40-59) =======================

/-- Outcome of one upstream `model.generateContent` call: resolved text or a
    thrown error carrying its `.message`. -/
inductive Outcome where
  | ok (text : String)
  | err (msg : String)
deriving DecidableEq, Repr

/-- How a run of `generateWithRetry` ended.  `thrownFromLoop` is the
    `throw error` inside the catch block (line 54); `postLoopCapacity` is the
    `throw new Error("Gemini 2.5 is at max capacity...")` after the loop
    (line 58). -/
inductive GenOutcome where
  | success (text : String)
  | thrownFromLoop (msg : String)
  | postLoopCapacity
deriving DecidableEq, Repr

/-- Message of the error constructed after the loop (server.ts line 58). -/
def capacityMsg : String := "Gemini 2.5 is at max capacity. Please try again in 1 minute."

/-- Trace of one `generateWithRetry` run: how many upstream calls were made,
    the backoff waits performed between attempts (in ms, in order), and how
    the run ended. -/
structure RunResult where
  calls : Nat
  waits : List ℚ
  outcome : GenOutcome
deriving DecidableEq, Repr

/-- server.ts line 47: an error is retryable ("busy") iff its message
    contains '503' or 'overloaded'. -/
def isBusy (msg : String) : Bool :=
  hasSub msg.data "503".data || hasSub msg.data "overloaded".data

/-- The retry loop of `generateWithRetry` (server.ts lines 41-58).
    `remaining` is `retries - i`, `i` is the loop index, `delay` the current
    backoff.  The JS guard `isBusy && i < retries - 1` is `isBusy && 0 < r`
    here, since at `remaining = r + 1` we have `i < retries - 1 ↔ 0 < r`.
    When the loop exits (remaining = 0) the post-loop error is thrown. -/
def genAux (oracle : Nat → Outcome) : Nat → Nat → ℚ → RunResult
  | 0, _, _ => ⟨0, [], .postLoopCapacity⟩
  | r + 1, i, delay =>
    match oracle i with
    | .ok text => ⟨1, [], .success text⟩
    | .err m =>
      if isBusy m && decide (0 < r) then
        let rest := genAux oracle r (i + 1) (delay * (3 / 2))
        ⟨rest.calls + 1, delay :: rest.waits, rest.outcome⟩
      else ⟨1, [], .thrownFromLoop m⟩

/-- server.ts line 40: `generateWithRetry(prompt, retries = 5, delay = 3000)`.
    The prompt is folded into the oracle; the handler instantiates the
    defaults 5 and 3000 at the call site (line 114). -/
def generateWithRetry (oracle : Nat → Outcome) (retries : Nat) (delay : ℚ) : RunResult :=
  genAux oracle retries 0 delay

/-- The backoff schedule `delay · 1.5^k`, `k < t`: the waits produced by `t`
    consecutive retried attempts starting from `delay`. -/
def geomWaits (delay : ℚ) (t : Nat) : List ℚ :=
  (List.range t).map (fun u => delay * (3 / 2) ^ u)

-- ===== §4 Prompt construction (server.ts lines 100-111) ==============

/-- Template text before the resume excerpt. -/
def promptHead : String :=
  "\n            Act as an expert ATS. Compare the RESUME TEXT to the JOB DESCRIPTION.\n            \n            RESUME:\n            "

/-- Template text between the resume excerpt and the job description. -/
def promptMid : String :=
  " ... (truncated)\n            \n            JOB DESCRIPTION:\n            "

/-- Template text after the job description. -/
def promptTail : String :=
  "\n            \n            OUTPUT JSON ONLY: \x7b \"score\": 0-100, \"missingKeywords\": [\"skill1\"], \"advice\": \"summary\" \x7d\n            Do not use markdown.\n        "

/-- server.ts lines 100-111: the template literal embedding
    `resumeText.substring(0, 25000)` and `jobDescription` verbatim. -/
def buildPrompt (resumeText jobDescription : String) : String :=
  promptHead ++ String.mk (resumeText.data.take 25000) ++ promptMid ++ jobDescription ++ promptTail

-- ===== §5 Request handler (server.ts lines 82-135) ===================

/-- JSON values as produced by `JSON.parse` of the model response. -/
inductive JVal where
  | jnull
  | jbool (b : Bool)
  | jnum (q : ℚ)
  | jstr (s : String)
  | jarr (xs : List JVal)
  | jobj (fields : List (String × JVal))

/-- Property lookup on a parsed object (JS `obj.key`; `none` = undefined). -/
def lookupField : List (String × JVal) → String → Option JVal
  | [], _ => none
  | (k, x) :: rest, key => if k = key then some x else lookupField rest key

/-- JS property access `v.key` on a parsed JSON value. -/
def jget (v : JVal) (key : String) : Option JVal :=
  match v with
  | .jobj fields => lookupField fields key
  | _ => none

/-- JS `String(x)` for array-join purposes.  Number rendering is abstracted
    (the claims under verification never join non-string elements). -/
def jsToString : JVal → String
  | .jstr s => s
  | .jnull => "null"
  | .jbool true => "true"
  | .jbool false => "false"
  | .jnum _ => "number"
  | .jarr _ => ""
  | .jobj _ => "[object Object]"

/-- JS `xs.join(', ')` on an array value. -/
def jsJoinArr (xs : List JVal) : String := String.intercalate ", " (xs.map jsToString)

/-- server.ts line 122: `analysis.missingKeywords.join(', ')`.  If the field
    is absent or not an array, `.join` is not a function and a TypeError is
    thrown (one representative message models all such TypeErrors; none of
    them contains '503'). -/
def jsJoinField : Option JVal → Except String String
  | some (.jarr xs) => .ok (jsJoinArr xs)
  | _ => .error "analysis.missingKeywords.join is not a function"

/-- server.ts line 122: `jobTitle || 'Unknown Role'` (JS falsy = absent or
    empty string). -/
def jsOr (v : Option String) (dflt : String) : String :=
  match v with
  | none => dflt
  | some s => if s.isEmpty then dflt else s

/-- Body of an HTTP response from the handler. -/
inductive RespBody where
  | errorBody (msg : String)
  | successBody (id : Nat) (data : JVal)

/-- One row inserted into the `analyses` table (server.ts lines 120-123). -/
structure InsertedRow where
  job_title : String
  match_score : Option JVal
  missing_skills : String

/-- Result of one request: HTTP status and body, plus the effect trace
    (number of upstream model calls, rows inserted into storage). -/
structure HandlerResult where
  status : Nat
  body : RespBody
  upstreamCalls : Nat
  inserted : List InsertedRow

/-- server.ts lines 127-134: the catch block.  Maps a thrown error message
    to 503 iff it contains '503', else 500; fixed bodies either way. -/
def catchMap (msg : String) (calls : Nat) : HandlerResult :=
  if hasSub msg.data "503".data then
    ⟨503, .errorBody "Gemini 2.5 is overloaded. Please click 'Scan' again.", calls, []⟩
  else
    ⟨500, .errorBody "Analysis failed. See server logs.", calls, []⟩

/-- server.ts lines 114-125: everything after the retry call, as a function
    of the finished `RunResult`: clean + parse the response text, join the
    keywords, insert one row, respond 200; any throw falls to the catch. -/
def afterRun (parseJson : String → Except String JVal) (nextId : Nat)
    (jobTitle : Option String) (run : RunResult) : HandlerResult :=
  match run.outcome with
  | .thrownFromLoop m => catchMap m run.calls
  | .postLoopCapacity => catchMap capacityMsg run.calls
  | .success text =>
    match parseJson (String.mk (pipelineProcess text.data)) with
    | .error m => catchMap m run.calls
    | .ok analysis =>
      match jsJoinField (jget analysis "missingKeywords") with
      | .error m => catchMap m run.calls
      | .ok joined =>
        ⟨200, .successBody nextId analysis, run.calls,
          [⟨jsOr jobTitle "Unknown Role", jget analysis "score", joined⟩]⟩

/-- server.ts lines 92-125: extract the resume text, build the prompt, run
    the retry client (retries = 5, delay = 3000), then `afterRun`. -/
def processRequest (extract : String → Except String String)
    (upstream : String → Nat → Outcome) (parseJson : String → Except String JVal)
    (nextId : Nat) (buf jd : String) (jobTitle : Option String) : HandlerResult :=
  match extract buf with
  | .error m => catchMap m 0
  | .ok resumeText =>
    afterRun parseJson nextId jobTitle
      (generateWithRetry (fun i => upstream (buildPrompt resumeText jd) i) 5 3000)

/-- server.ts lines 82-135: the POST /api/analyze handler.
    `file` is the uploaded buffer (none = missing), `jobDescription` and
    `jobTitle` the body fields (none = absent).  The guard is the JS test
    `!file || !jobDescription`, so an empty-string job description is also
    rejected with 400 before any work happens. -/
def handleAnalyze (extract : String → Except String String)
    (upstream : String → Nat → Outcome) (parseJson : String → Except String JVal)
    (nextId : Nat) (file jobDescription jobTitle : Option String) : HandlerResult :=
  match file, jobDescription with
  | some buf, some jd =>
    if jd.isEmpty then ⟨400, .errorBody "Resume and JD required", 0, []⟩
    else processRequest extract upstream parseJson nextId buf jd jobTitle
  | _, _ => ⟨400, .errorBody "Resume and JD required", 0, []⟩

/-- The retry run the handler performs for a given extracted text and job
    description: `generateWithRetry(prompt)` at server.ts line 114, with the
    default parameters retries = 5, delay = 3000. -/
def runFor (upstream : String → Nat → Outcome) (resumeText jd : String) : RunResult :=
  generateWithRetry (fun i => upstream (buildPrompt resumeText jd) i) 5 3000

-- ===== §6 Concrete stub collaborators used by witnesses ==============

/-- Extractor stub that always succeeds. -/
def stubExtract : String → Except String String := fun _ => .ok "resume text"

/-- Upstream stub that resolves on the first attempt. -/
def stubUpstreamOk : String → Nat → Outcome := fun _ _ => .ok "ignored"

/-- Upstream stub that always reports overload without a 503 code. -/
def stubUpstreamBusy : String → Nat → Outcome := fun _ _ => .err "overloaded"

/-- JSON-parser stub returning a fixed value. -/
def stubParse (a : JVal) : String → Except String JVal := fun _ => .ok a

/-- A well-formed analysis object (score 80). -/
def goodAnalysis : JVal :=
  .jobj [("score", .jnum 80), ("missingKeywords", .jarr [.jstr "sql"]), ("advice", .jstr "learn sql")]

/-- An analysis object whose score 150 violates the [0,100] invariant. -/
def badAnalysis : JVal :=
  .jobj [("score", .jnum 150), ("missingKeywords", .jarr []), ("advice", .jstr "ok")]

/-- Upstream stub for C2's witness: overloaded on attempts 0 and 1,
    success on attempt 2. -/
def thirdTimeLucky : Nat → Outcome :=
  fun j => if j < 2 then .err "overloaded" else .ok "OK"

/-- Per-attempt oracle that always reports overload without a 503 code. -/
def alwaysBusy : Nat → Outcome := fun _ => .err "overloaded"

-- ===== §7 Shared lemmas ==============================================

theorem isPrefixOf_iff_ex (p : List Char) : ∀ s, p.isPrefixOf s = true ↔ ∃ t, s = p ++ t := by
  induction p with
  | nil => intro s; simp [List.isPrefixOf]
  | cons a p' ih =>
    intro s
    cases s with
    | nil => simp [List.isPrefixOf]
    | cons b s' =>
      simp only [List.isPrefixOf, Bool.and_eq_true, beq_iff_eq, ih, List.cons_append]
      constructor
      · rintro ⟨rfl, t, rfl⟩; exact ⟨t, rfl⟩
      · rintro ⟨t, ht⟩
        injection ht with h1 h2
        exact ⟨h1.symm, t, h2⟩

theorem hasSub_iff_ex (pat : List Char) : ∀ s, hasSub s pat = true ↔ ∃ u v, s = u ++ pat ++ v := by
  intro s
  induction s with
  | nil =>
    cases pat with
    | nil => simp [hasSub]
    | cons c pat' => simp [hasSub]
  | cons c rest ih =>
    simp only [hasSub, Bool.or_eq_true, isPrefixOf_iff_ex, ih]
    constructor
    · rintro (⟨t, ht⟩ | ⟨u, v, huv⟩)
      · exact ⟨[], t, by simpa using ht⟩
      · exact ⟨c :: u, v, by simp [huv]⟩
    · rintro ⟨u, v, h⟩
      cases u with
      | nil => exact Or.inl ⟨v, by simpa using h⟩
      | cons x u' =>
        injection h with h1 h2
        exact Or.inr ⟨u', v, h2⟩

theorem geomWaits_zero (delay : ℚ) : geomWaits delay 0 = [] := rfl

theorem geomWaits_succ (delay : ℚ) (t : Nat) :
    geomWaits delay (t + 1) = delay :: geomWaits (delay * (3 / 2)) t := by
  unfold geomWaits
  rw [List.range_succ_eq_map, List.map_cons, List.map_map]
  congr 1
  · ring
  · refine List.map_congr_left ?_
    intro u _
    show delay * (3 / 2 : ℚ) ^ (u + 1) = delay * (3 / 2) * (3 / 2) ^ u
    ring

theorem geomWaits_pairwise (delay : ℚ) (hd : 0 ≤ delay) (t : Nat) :
    (geomWaits delay t).Pairwise (· ≤ ·) := by
  unfold geomWaits
  rw [List.pairwise_map]
  refine (List.pairwise_lt_range t).imp ?_
  intro a b hab
  have h1 : (3 / 2 : ℚ) ^ a ≤ (3 / 2) ^ b := by
    refine pow_le_pow_right₀ (by norm_num) (by omega)
  exact mul_le_mul_of_nonneg_left h1 hd

theorem genAux_skip_busy (oracle : Nat → Outcome) :
    ∀ (t r i : Nat) (delay : ℚ), t < r →
    (∀ j, j < t → ∃ mm, oracle (i + j) = Outcome.err mm ∧ isBusy mm = true) →
    genAux oracle r i delay =
      ⟨(genAux oracle (r - t) (i + t) (delay * (3 / 2) ^ t)).calls + t,
        geomWaits delay t ++ (genAux oracle (r - t) (i + t) (delay * (3 / 2) ^ t)).waits,
        (genAux oracle (r - t) (i + t) (delay * (3 / 2) ^ t)).outcome⟩ := by
  intro t
  induction t with
  | zero =>
    intro r i delay _ _
    have e3 : delay * (3 / 2 : ℚ) ^ (0 : Nat) = delay := by ring
    rw [Nat.sub_zero, Nat.add_zero, e3, geomWaits_zero, List.nil_append, Nat.add_zero]
  | succ t ih =>
    intro r i delay hlt hbusy
    obtain ⟨r', rfl⟩ : ∃ r', r = r' + 1 := ⟨r - 1, by omega⟩
    obtain ⟨mm, hmm, hbm⟩ := hbusy 0 (by omega)
    rw [Nat.add_zero] at hmm
    have h0r : (0 < r') := by omega
    have e1 : r' + 1 - (t + 1) = r' - t := by omega
    have e2 : i + (t + 1) = i + 1 + t := by omega
    have e3 : delay * (3 / 2 : ℚ) ^ (t + 1) = delay * (3 / 2) * (3 / 2) ^ t := by ring
    rw [e1, e2, e3, geomWaits_succ]
    have hbusy' : ∀ j, j < t → ∃ mm, oracle (i + 1 + j) = Outcome.err mm ∧ isBusy mm = true := by
      intro j hj
      have := hbusy (j + 1) (by omega)
      rwa [show i + (j + 1) = i + 1 + j by omega] at this
    have hcond : (isBusy mm && decide (0 < r')) = true := by
      rw [hbm, decide_eq_true h0r, Bool.and_self]
    have step : genAux oracle (r' + 1) i delay =
        ⟨(genAux oracle r' (i + 1) (delay * (3 / 2))).calls + 1,
          delay :: (genAux oracle r' (i + 1) (delay * (3 / 2))).waits,
          (genAux oracle r' (i + 1) (delay * (3 / 2))).outcome⟩ := by
      simp only [genAux, hmm, hcond, eq_self_iff_true, if_true]
    rw [step, ih r' (i + 1) (delay * (3 / 2)) (by omega) hbusy']
    rfl

theorem genAux_no_capacity (oracle : Nat → Outcome) :
    ∀ r, 1 ≤ r → ∀ (i : Nat) (delay : ℚ),
    (genAux oracle r i delay).outcome ≠ GenOutcome.postLoopCapacity := by
  intro r
  induction r with
  | zero => intro h; exact absurd h (by omega)
  | succ r ih =>
    intro _ i delay
    cases ho : oracle i with
    | ok t => simp [genAux, ho]
    | err m =>
      simp only [genAux, ho]
      split
      · next hc =>
        have hr : 0 < r := by
          have := (Bool.and_eq_true _ _).mp hc
          simpa using this.2
        exact ih hr (i + 1) (delay * (3 / 2))
      · simp

-- ===== §8 Claims about the retry client ==============================

/-- C1 (code bug evidence): with an upstream that always fails with the
    retryable message 'overloaded', `generateWithRetry` with the default
    parameters (5, 3000) performs exactly 5 upstream calls and then rethrows
    the RAW upstream error from inside the loop — not the normalized
    CapacityExhausted message of line 58, which differs from it.  The claim
    (and the dead code on line 58) say the normalized message is thrown. -/
theorem gen_retry_exhaustion_raw_error :
    (generateWithRetry alwaysBusy 5 3000).calls = 5 ∧
    (generateWithRetry alwaysBusy 5 3000).outcome = GenOutcome.thrownFromLoop "overloaded" ∧
    "overloaded" ≠ capacityMsg := by
  refine ⟨by decide, by decide, by decide⟩

/-- C9: for every retries ≥ 1, a run of `generateWithRetry` ends with a
    model result or with an error rethrown inside the for-loop; the
    post-loop 'Gemini 2.5 is at max capacity' throw is unreachable, because
    on the final attempt any error is rethrown inside the loop. -/
theorem post_loop_capacity_throw_unreachable (oracle : Nat → Outcome) (retries : Nat)
    (delay : ℚ) (h : 1 ≤ retries) :
    (generateWithRetry oracle retries delay).outcome ≠ GenOutcome.postLoopCapacity :=
  genAux_no_capacity oracle retries h 0 delay

/-- Witness for C9 at retries = 1 with a fatal upstream error. -/
theorem post_loop_capacity_throw_unreachable_witness :
    1 ≤ 1 ∧ (generateWithRetry (fun _ => Outcome.err "x") 1 0).outcome ≠ GenOutcome.postLoopCapacity :=
  ⟨by decide, post_loop_capacity_throw_unreachable (fun _ => Outcome.err "x") 1 0 (by decide)⟩

/-- C2: if the model fails with retryable errors on the first N−1 attempts
    and succeeds on attempt N (N ≤ retries), `generateWithRetry` returns
    that success after exactly N upstream calls, the waits between attempts
    are 3000 · 1.5^k for k < N−1 (i.e. they start at the initial delay 3000
    and each subsequent wait is the previous one times 1.5), and that wait
    sequence is non-decreasing. -/
theorem retry_succeeds_after_transient_overload
    (oracle : Nat → Outcome) (N retries : Nat) (text : String)
    (h1 : 1 ≤ N) (h2 : N ≤ retries)
    (hbusy : ∀ j, j < N - 1 → ∃ mm, oracle j = Outcome.err mm ∧ isBusy mm = true)
    (hok : oracle (N - 1) = Outcome.ok text) :
    generateWithRetry oracle retries 3000 = ⟨N, geomWaits 3000 (N - 1), GenOutcome.success text⟩
    ∧ (geomWaits 3000 (N - 1)).Pairwise (· ≤ ·) := by
  refine ⟨?_, geomWaits_pairwise 3000 (by norm_num) (N - 1)⟩
  unfold generateWithRetry
  have hbusy' : ∀ j, j < N - 1 → ∃ mm, oracle (0 + j) = Outcome.err mm ∧ isBusy mm = true := by
    simpa using hbusy
  rw [genAux_skip_busy oracle (N - 1) retries 0 3000 (by omega) hbusy']
  obtain ⟨k, hk⟩ : ∃ k, retries - (N - 1) = k + 1 := ⟨retries - N, by omega⟩
  rw [hk, Nat.zero_add]
  have hX : genAux oracle (k + 1) (N - 1) (3000 * (3 / 2) ^ (N - 1)) =
      ⟨1, [], GenOutcome.success text⟩ := by
    simp only [genAux, hok]
  rw [hX]
  have hN : 1 + (N - 1) = N := by omega
  simp [hN]

/-- Witness for C2 with N = 3, retries = 5: two overloads then success. -/
theorem retry_succeeds_after_transient_overload_witness :
    (1 ≤ 3 ∧ 3 ≤ 5 ∧ thirdTimeLucky 2 = Outcome.ok "OK") ∧
    (generateWithRetry thirdTimeLucky 5 3000 = ⟨3, geomWaits 3000 2, GenOutcome.success "OK"⟩
      ∧ (geomWaits 3000 2).Pairwise (· ≤ ·)) := by
  have hbusy : ∀ j, j < 3 - 1 → ∃ mm, thirdTimeLucky j = Outcome.err mm ∧ isBusy mm = true := by
    intro j hj
    have hj2 : j < 2 := hj
    exact ⟨"overloaded", by simp [thirdTimeLucky, hj2], by decide⟩
  exact ⟨⟨by decide, by decide, rfl⟩,
    retry_succeeds_after_transient_overload thirdTimeLucky 3 5 "OK" (by decide) (by decide) hbusy rfl⟩

/-- C3: an upstream error is retryable iff its message contains '503' or
    'overloaded' as a contiguous substring; and whenever a non-retryable
    error occurs on attempt k+1 (after k retryable failures),
    `generateWithRetry` rethrows exactly that error at once: k+1 total
    upstream calls (one call on the failing attempt), no further retry, and
    no additional backoff wait (only the k earlier waits). -/
theorem fatal_error_propagates_immediately
    (oracle : Nat → Outcome) (retries k : Nat) (delay : ℚ) (m : String)
    (hk : k < retries)
    (hbusy : ∀ j, j < k → ∃ mm, oracle j = Outcome.err mm ∧ isBusy mm = true)
    (hm : oracle k = Outcome.err m) (hfatal : isBusy m = false) :
    (∀ msg : String, isBusy msg = true ↔
      ((∃ u v, msg.data = u ++ "503".data ++ v) ∨ (∃ u v, msg.data = u ++ "overloaded".data ++ v)))
    ∧ generateWithRetry oracle retries delay =
        ⟨k + 1, geomWaits delay k, GenOutcome.thrownFromLoop m⟩ := by
  constructor
  · intro msg
    unfold isBusy
    rw [Bool.or_eq_true, hasSub_iff_ex, hasSub_iff_ex]
  · unfold generateWithRetry
    have hbusy' : ∀ j, j < k → ∃ mm, oracle (0 + j) = Outcome.err mm ∧ isBusy mm = true := by
      simpa using hbusy
    rw [genAux_skip_busy oracle k retries 0 delay (by omega) hbusy']
    obtain ⟨k', hk'⟩ : ∃ k', retries - k = k' + 1 := ⟨retries - k - 1, by omega⟩
    rw [hk', Nat.zero_add]
    have hX : genAux oracle (k' + 1) k (delay * (3 / 2) ^ k) =
        ⟨1, [], GenOutcome.thrownFromLoop m⟩ := by
      simp only [genAux, hm, hfatal, Bool.false_and, Bool.false_eq_true, if_false]
    rw [hX]
    have hkk : 1 + k = k + 1 := by omega
    simp [hkk]

/-- Witness for C3: a fatal error on the very first attempt. -/
theorem fatal_error_propagates_immediately_witness :
    (0 < 5 ∧ isBusy "boom" = false) ∧
    generateWithRetry (fun _ => Outcome.err "boom") 5 1000 =
      ⟨1, geomWaits 1000 0, GenOutcome.thrownFromLoop "boom"⟩ :=
  ⟨⟨by decide, by decide⟩,
    (fatal_error_propagates_immediately (fun _ => Outcome.err "boom") 5 0 1000 "boom"
      (by decide) (fun j hj => absurd hj (by omega)) rfl (by decide)).2⟩

-- ===== §9 Claim about the prompt builder =============================

/-- C8: the Prompt is a function of the extracted text and job description
    in which at most the first 25,000 characters of the extracted text
    appear: the prompt built from `resumeText` equals the prompt built from
    its 25,000-character prefix (so any longer suffix cannot influence it),
    while `jobDescription` is embedded verbatim and in full — it occurs as
    one contiguous block, whatever its length. -/
theorem prompt_truncates_resume_embeds_jd (resumeText jobDescription : String) :
    buildPrompt resumeText jobDescription =
      buildPrompt (String.mk (resumeText.data.take 25000)) jobDescription
    ∧ ∃ u v : String, buildPrompt resumeText jobDescription = u ++ (jobDescription ++ v) := by
  constructor
  · show promptHead ++ String.mk (resumeText.data.take 25000) ++ promptMid
        ++ jobDescription ++ promptTail
      = promptHead ++ String.mk ((resumeText.data.take 25000).take 25000) ++ promptMid
        ++ jobDescription ++ promptTail
    rw [List.take_take, min_self]
  · refine ⟨promptHead ++ String.mk (resumeText.data.take 25000) ++ promptMid, promptTail, ?_⟩
    exact String.append_assoc
      (promptHead ++ String.mk (resumeText.data.take 25000) ++ promptMid)
      jobDescription promptTail

-- ===== §10 Handler lemmas ============================================

theorem catchMap_cases (m : String) (calls : Nat) :
    catchMap m calls =
      ⟨503, RespBody.errorBody "Gemini 2.5 is overloaded. Please click 'Scan' again.", calls, []⟩
    ∨ catchMap m calls =
      ⟨500, RespBody.errorBody "Analysis failed. See server logs.", calls, []⟩ := by
  unfold catchMap
  split
  · exact Or.inl rfl
  · exact Or.inr rfl

theorem afterRun_cases (parseJson : String → Except String JVal) (nextId : Nat)
    (jt : Option String) (run : RunResult) :
    (∃ m, afterRun parseJson nextId jt run = catchMap m run.calls)
    ∨ (∃ a j, afterRun parseJson nextId jt run =
        ⟨200, RespBody.successBody nextId a, run.calls,
          [⟨jsOr jt "Unknown Role", jget a "score", j⟩]⟩) := by
  obtain ⟨calls, waits, outcome⟩ := run
  cases outcome with
  | thrownFromLoop m => exact Or.inl ⟨m, rfl⟩
  | postLoopCapacity => exact Or.inl ⟨capacityMsg, rfl⟩
  | success text =>
    cases hp : parseJson (String.mk (pipelineProcess text.data)) with
    | error m =>
      refine Or.inl ⟨m, ?_⟩
      simp only [afterRun, hp]
    | ok analysis =>
      cases hj : jsJoinField (jget analysis "missingKeywords") with
      | error m =>
        refine Or.inl ⟨m, ?_⟩
        simp only [afterRun, hp, hj]
      | ok joined =>
        refine Or.inr ⟨analysis, joined, ?_⟩
        simp only [afterRun, hp, hj]

theorem handleAnalyze_cases (extract : String → Except String String)
    (upstream : String → Nat → Outcome) (parseJson : String → Except String JVal)
    (nextId : Nat) (file jd jt : Option String) :
    handleAnalyze extract upstream parseJson nextId file jd jt =
      ⟨400, RespBody.errorBody "Resume and JD required", 0, []⟩
    ∨ (∃ m c, handleAnalyze extract upstream parseJson nextId file jd jt = catchMap m c)
    ∨ (∃ a j c, handleAnalyze extract upstream parseJson nextId file jd jt =
        ⟨200, RespBody.successBody nextId a, c,
          [⟨jsOr jt "Unknown Role", jget a "score", j⟩]⟩) := by
  cases file with
  | none =>
    cases jd with
    | none => exact Or.inl rfl
    | some j => exact Or.inl rfl
  | some buf =>
    cases jd with
    | none => exact Or.inl rfl
    | some j =>
      by_cases hjd : j.isEmpty
      · left
        simp only [handleAnalyze, hjd, if_true]
      · have hjd' : j.isEmpty = false := by simpa using hjd
        have hred : handleAnalyze extract upstream parseJson nextId (some buf) (some j) jt =
            processRequest extract upstream parseJson nextId buf j jt := by
          simp only [handleAnalyze, hjd', Bool.false_eq_true, if_false]
        rw [hred]
        unfold processRequest
        cases he : extract buf with
        | error m => exact Or.inr (Or.inl ⟨m, 0, rfl⟩)
        | ok resumeText =>
          rcases afterRun_cases parseJson nextId jt
              (generateWithRetry (fun i => upstream (buildPrompt resumeText j) i) 5 3000) with
            ⟨m, hm⟩ | ⟨a, jn, ha⟩
          · exact Or.inr (Or.inl ⟨m, _, hm⟩)
          · exact Or.inr (Or.inr ⟨a, jn, _, ha⟩)

theorem inserted_row_title (extract : String → Except String String)
    (upstream : String → Nat → Outcome) (parseJson : String → Except String JVal)
    (nextId : Nat) (file jd jt : Option String) (row : InsertedRow)
    (hrow : row ∈ (handleAnalyze extract upstream parseJson nextId file jd jt).inserted) :
    row.job_title = jsOr jt "Unknown Role" := by
  rcases handleAnalyze_cases extract upstream parseJson nextId file jd jt with
    h | ⟨m, c, h⟩ | ⟨a, j, c, h⟩
  · rw [h] at hrow
    simp at hrow
  · rcases catchMap_cases m c with hc | hc <;>
      · rw [h, hc] at hrow
        simp at hrow
  · rw [h] at hrow
    rw [List.mem_singleton] at hrow
    rw [hrow]

-- ===== §11 Claims about the request handler ==========================

/-- C4 counterexample: with an upstream that is permanently overloaded but
    whose error message says only 'overloaded' (no '503'), the handler
    exhausts all 5 attempts and answers 500 with the generic body — not 503
    as the claim requires for every exhausted/overloaded upstream. -/
theorem overloaded_error_maps_to_500 :
    (handleAnalyze stubExtract stubUpstreamBusy (stubParse badAnalysis) 1
        (some "pdf") (some "jd") none).status = 500
    ∧ (handleAnalyze stubExtract stubUpstreamBusy (stubParse badAnalysis) 1
        (some "pdf") (some "jd") none).body
      = RespBody.errorBody "Analysis failed. See server logs."
    ∧ (handleAnalyze stubExtract stubUpstreamBusy (stubParse badAnalysis) 1
        (some "pdf") (some "jd") none).upstreamCalls = 5 :=
  ⟨rfl, rfl, rfl⟩

theorem processRequest_status_ne_400 (extract : String → Except String String)
    (upstream : String → Nat → Outcome) (parseJson : String → Except String JVal)
    (nextId : Nat) (buf j : String) (jt : Option String) :
    (processRequest extract upstream parseJson nextId buf j jt).status ≠ 400 := by
  unfold processRequest
  cases he : extract buf with
  | error m =>
    show (catchMap m 0).status ≠ 400
    rcases catchMap_cases m 0 with hc | hc <;> rw [hc] <;> simp
  | ok rtext =>
    show (afterRun parseJson nextId jt
        (generateWithRetry (fun i => upstream (buildPrompt rtext j) i) 5 3000)).status ≠ 400
    rcases afterRun_cases parseJson nextId jt
        (generateWithRetry (fun i => upstream (buildPrompt rtext j) i) 5 3000) with
      ⟨m, hm⟩ | ⟨a, jn, ha⟩
    · rcases catchMap_cases m _ with hc | hc <;> rw [hm, hc] <;> simp
    · rw [ha]
      simp

/-- C4 (amended): a complete characterization of the handler's responses.
    (1) The response is the fixed 400 result (body 'Resume and JD required',
    no upstream call, no insert) exactly when the document or the job
    description is missing (absent or empty).  (2) The catch block maps a
    caught message to status 503 exactly when it contains '503' and to 500
    exactly when it does not, each with its fixed sanitized body, so error
    bodies never include the raw upstream error text.  (3) With both inputs
    present, every failing path answers through that catch block applied to
    the message actually caught — the extraction error, the error propagated
    by generateWithRetry, the capacity message, the JSON.parse error, or the
    join TypeError — and the remaining path answers 200 with the success
    body. -/
theorem analyze_status_exact (extract : String → Except String String)
    (upstream : String → Nat → Outcome) (parseJson : String → Except String JVal)
    (nextId : Nat) (file jd jt : Option String) :
    ((file = none ∨ jd = none ∨ jd = some "") ↔
      handleAnalyze extract upstream parseJson nextId file jd jt
        = ⟨400, RespBody.errorBody "Resume and JD required", 0, []⟩)
    ∧ (∀ (m : String) (c : Nat),
        ((catchMap m c).status = 503 ↔ hasSub m.data "503".data = true)
        ∧ ((catchMap m c).status = 500 ↔ hasSub m.data "503".data = false)
        ∧ (hasSub m.data "503".data = true →
            (catchMap m c).body
              = RespBody.errorBody "Gemini 2.5 is overloaded. Please click 'Scan' again.")
        ∧ (hasSub m.data "503".data = false →
            (catchMap m c).body = RespBody.errorBody "Analysis failed. See server logs."))
    ∧ (∀ buf j, file = some buf → jd = some j → j.isEmpty = false →
        (∀ m, extract buf = Except.error m →
          handleAnalyze extract upstream parseJson nextId file jd jt = catchMap m 0)
        ∧ (∀ rtext, extract buf = Except.ok rtext →
            (∀ m, (runFor upstream rtext j).outcome = GenOutcome.thrownFromLoop m →
              handleAnalyze extract upstream parseJson nextId file jd jt
                = catchMap m (runFor upstream rtext j).calls)
            ∧ ((runFor upstream rtext j).outcome = GenOutcome.postLoopCapacity →
              handleAnalyze extract upstream parseJson nextId file jd jt
                = catchMap capacityMsg (runFor upstream rtext j).calls)
            ∧ (∀ txt, (runFor upstream rtext j).outcome = GenOutcome.success txt →
                (∀ m, parseJson (String.mk (pipelineProcess txt.data)) = Except.error m →
                  handleAnalyze extract upstream parseJson nextId file jd jt
                    = catchMap m (runFor upstream rtext j).calls)
                ∧ (∀ a, parseJson (String.mk (pipelineProcess txt.data)) = Except.ok a →
                    (∀ m, jsJoinField (jget a "missingKeywords") = Except.error m →
                      handleAnalyze extract upstream parseJson nextId file jd jt
                        = catchMap m (runFor upstream rtext j).calls)
                    ∧ (∀ joined, jsJoinField (jget a "missingKeywords") = Except.ok joined →
                        handleAnalyze extract upstream parseJson nextId file jd jt
                          = ⟨200, RespBody.successBody nextId a,
                              (runFor upstream rtext j).calls,
                              [⟨jsOr jt "Unknown Role", jget a "score", joined⟩]⟩))))) := by
  refine ⟨⟨?_, ?_⟩, ?_, ?_⟩
  · intro hmiss
    rcases hmiss with hf | hj | hj
    · subst hf
      cases jd with
      | none => rfl
      | some j => rfl
    · subst hj
      cases file with
      | none => rfl
      | some b => rfl
    · subst hj
      cases file with
      | none => rfl
      | some b => rfl
  · intro h400
    cases file with
    | none => exact Or.inl rfl
    | some buf =>
      cases jd with
      | none => exact Or.inr (Or.inl rfl)
      | some j =>
        by_cases hje : j.isEmpty = true
        · exact Or.inr (Or.inr (by rw [(String.isEmpty_iff j).mp hje]))
        · exfalso
          have hje' : j.isEmpty = false := by
            cases hv : j.isEmpty with
            | false => rfl
            | true => exact absurd hv hje
          have hred : handleAnalyze extract upstream parseJson nextId (some buf) (some j) jt
              = processRequest extract upstream parseJson nextId buf j jt := by
            simp only [handleAnalyze, hje', Bool.false_eq_true, if_false]
          rw [hred] at h400
          have hst := congrArg HandlerResult.status h400
          exact processRequest_status_ne_400 extract upstream parseJson nextId buf j jt hst
  · intro m c
    by_cases hm : hasSub m.data "503".data = true
    · unfold catchMap
      rw [if_pos hm]
      simp [hm]
    · have hm' : hasSub m.data "503".data = false := by
        cases hv : hasSub m.data "503".data with
        | false => rfl
        | true => exact absurd hv hm
      unfold catchMap
      rw [if_neg hm]
      simp [hm']
  · intro buf j hf hj hje
    subst hf
    subst hj
    have hred : handleAnalyze extract upstream parseJson nextId (some buf) (some j) jt
        = processRequest extract upstream parseJson nextId buf j jt := by
      simp only [handleAnalyze, hje, Bool.false_eq_true, if_false]
    constructor
    · intro m hm
      rw [hred]
      simp only [processRequest, hm]
    · intro rtext hex
      refine ⟨?_, ?_, ?_⟩
      · intro m hrun
        rw [hred]
        simp only [runFor, generateWithRetry] at hrun
        simp only [processRequest, hex, afterRun, hrun, runFor, generateWithRetry]
      · intro hrun
        rw [hred]
        simp only [runFor, generateWithRetry] at hrun
        simp only [processRequest, hex, afterRun, hrun, runFor, generateWithRetry]
      · intro txt hrun
        constructor
        · intro m hp
          rw [hred]
          simp only [runFor, generateWithRetry] at hrun
          simp only [processRequest, hex, afterRun, hrun, hp, runFor, generateWithRetry]
        · intro a hp
          constructor
          · intro m hjoin
            rw [hred]
            simp only [runFor, generateWithRetry] at hrun
            simp only [processRequest, hex, afterRun, hrun, hp, hjoin, runFor, generateWithRetry]
          · intro joined hjoin
            rw [hred]
            simp only [runFor, generateWithRetry] at hrun
            simp only [processRequest, hex, afterRun, hrun, hp, hjoin, runFor, generateWithRetry]

/-- Witness for the amended C4: an always-'overloaded' upstream (message
    without '503') follows the catch path and maps to 500. -/
theorem analyze_status_exact_witness :
    (stubExtract "pdf" = Except.ok "resume text"
      ∧ (runFor stubUpstreamBusy "resume text" "jd").outcome
          = GenOutcome.thrownFromLoop "overloaded"
      ∧ hasSub ("overloaded" : String).data ("503" : String).data = false)
    ∧ handleAnalyze stubExtract stubUpstreamBusy (stubParse badAnalysis) 1
        (some "pdf") (some "jd") none
      = catchMap "overloaded" (runFor stubUpstreamBusy "resume text" "jd").calls
    ∧ ((catchMap "overloaded" (runFor stubUpstreamBusy "resume text" "jd").calls).status = 500
      ↔ hasSub ("overloaded" : String).data ("503" : String).data = false) := by
  have H := analyze_status_exact stubExtract stubUpstreamBusy (stubParse badAnalysis) 1
    (some "pdf") (some "jd") none
  refine ⟨⟨rfl, rfl, by decide⟩, ?_, ?_⟩
  · exact (((H.2.2 "pdf" "jd" rfl rfl rfl).2 "resume text" rfl).1 "overloaded" rfl)
  · exact (H.2.1 "overloaded" (runFor stubUpstreamBusy "resume text" "jd").calls).2.1

/-- C5 counterexample: a deterministic stub model whose JSON reports score
    150 produces a 200 response whose returned and persisted analysis has
    score 150, outside [0,100] — the pipeline never validates the range. -/
theorem unvalidated_score_persisted :
    (handleAnalyze stubExtract stubUpstreamOk (stubParse badAnalysis) 7
        (some "pdf") (some "jd") none).status = 200
    ∧ (handleAnalyze stubExtract stubUpstreamOk (stubParse badAnalysis) 7
        (some "pdf") (some "jd") none).inserted
      = [⟨"Unknown Role", some (JVal.jnum 150), ""⟩]
    ∧ (handleAnalyze stubExtract stubUpstreamOk (stubParse badAnalysis) 7
        (some "pdf") (some "jd") none).body = RespBody.successBody 7 badAnalysis
    ∧ ¬ ((150 : ℚ) ≤ 100) :=
  ⟨rfl, rfl, rfl, by norm_num⟩

/-- C5 (amended): the pipeline performs no validation of the parsed model
    response: on every successful request it returns and persists the parsed
    analysis verbatim — the body carries the parsed value, and the inserted
    row carries exactly its 'score' field and the join of its
    'missingKeywords' field — so score lies in [0,100] and missingKeywords
    is a string sequence exactly when the stub's JSON already satisfies
    that. -/
theorem analysis_persisted_verbatim (extract : String → Except String String)
    (upstream : String → Nat → Outcome) (parseJson : String → Except String JVal)
    (nextId : Nat) (buf jd rtext txt joined : String) (jt : Option String) (a : JVal)
    (hjd : jd.isEmpty = false)
    (hex : extract buf = Except.ok rtext)
    (hrun : (generateWithRetry (fun i => upstream (buildPrompt rtext jd) i) 5 3000).outcome
      = GenOutcome.success txt)
    (hparse : parseJson (String.mk (pipelineProcess txt.data)) = Except.ok a)
    (hjoin : jsJoinField (jget a "missingKeywords") = Except.ok joined) :
    handleAnalyze extract upstream parseJson nextId (some buf) (some jd) jt =
      ⟨200, RespBody.successBody nextId a,
        (generateWithRetry (fun i => upstream (buildPrompt rtext jd) i) 5 3000).calls,
        [⟨jsOr jt "Unknown Role", jget a "score", joined⟩]⟩ := by
  simp only [handleAnalyze, hjd, Bool.false_eq_true, if_false, processRequest, hex,
    afterRun, hrun, hparse, hjoin]

/-- Witness for the amended C5: the score-150 stub follows the verbatim
    persistence path. -/
theorem analysis_persisted_verbatim_witness :
    (("jd" : String).isEmpty = false
      ∧ stubExtract "pdf" = Except.ok "resume text"
      ∧ (generateWithRetry (fun i => stubUpstreamOk (buildPrompt "resume text" "jd") i)
          5 3000).outcome = GenOutcome.success "ignored"
      ∧ stubParse badAnalysis (String.mk (pipelineProcess ("ignored" : String).data))
          = Except.ok badAnalysis
      ∧ jsJoinField (jget badAnalysis "missingKeywords") = Except.ok "")
    ∧ handleAnalyze stubExtract stubUpstreamOk (stubParse badAnalysis) 7
        (some "pdf") (some "jd") none =
      ⟨200, RespBody.successBody 7 badAnalysis,
        (generateWithRetry (fun i => stubUpstreamOk (buildPrompt "resume text" "jd") i)
          5 3000).calls,
        [⟨jsOr none "Unknown Role", jget badAnalysis "score", ""⟩]⟩ :=
  ⟨⟨rfl, rfl, rfl, rfl, rfl⟩,
    analysis_persisted_verbatim stubExtract stubUpstreamOk (stubParse badAnalysis) 7
      "pdf" "jd" "resume text" "ignored" "" none badAnalysis rfl rfl rfl rfl rfl⟩

/-- C6: storage receives exactly one row when the response is 200 and no row
    otherwise (any failing request — missing input, extraction error,
    inference error, or malformed response — inserts nothing); and a request
    missing the file or the job description (absent or empty) makes zero
    upstream model calls. -/
theorem no_insert_on_failure_single_on_success (extract : String → Except String String)
    (upstream : String → Nat → Outcome) (parseJson : String → Except String JVal)
    (nextId : Nat) (file jd jt : Option String) :
    ((handleAnalyze extract upstream parseJson nextId file jd jt).inserted.length
      = if (handleAnalyze extract upstream parseJson nextId file jd jt).status = 200
        then 1 else 0)
    ∧ (handleAnalyze extract upstream parseJson nextId none jd jt).upstreamCalls = 0
    ∧ (handleAnalyze extract upstream parseJson nextId none jd jt).inserted = []
    ∧ (handleAnalyze extract upstream parseJson nextId file none jt).upstreamCalls = 0
    ∧ (handleAnalyze extract upstream parseJson nextId file none jt).inserted = []
    ∧ (handleAnalyze extract upstream parseJson nextId file (some "") jt).upstreamCalls = 0
    ∧ (handleAnalyze extract upstream parseJson nextId file (some "") jt).inserted = [] := by
  refine ⟨?_, ?_, ?_, ?_, ?_, ?_, ?_⟩
  · rcases handleAnalyze_cases extract upstream parseJson nextId file jd jt with
      h | ⟨m, c, h⟩ | ⟨a, j, c, h⟩
    · rw [h]; simp
    · rcases catchMap_cases m c with hc | hc <;> (rw [h, hc]; simp)
    · rw [h]; simp
  · cases jd with
    | none => rfl
    | some j => rfl
  · cases jd with
    | none => rfl
    | some j => rfl
  · cases file with
    | none => rfl
    | some b => rfl
  · cases file with
    | none => rfl
    | some b => rfl
  · cases file with
    | none => rfl
    | some b => rfl
  · cases file with
    | none => rfl
    | some b => rfl

/-- C10: every persisted row's job_title is 'Unknown Role' when the request's
    jobTitle is absent or empty, and is the request's jobTitle verbatim when
    it is a non-empty string. -/
theorem job_title_default_and_verbatim (extract : String → Except String String)
    (upstream : String → Nat → Outcome) (parseJson : String → Except String JVal)
    (nextId : Nat) (file jd : Option String) (s : String) (r₁ r₂ r₃ : InsertedRow)
    (h₁ : r₁ ∈ (handleAnalyze extract upstream parseJson nextId file jd none).inserted)
    (h₂ : r₂ ∈ (handleAnalyze extract upstream parseJson nextId file jd (some "")).inserted)
    (h₃ : r₃ ∈ (handleAnalyze extract upstream parseJson nextId file jd (some s)).inserted)
    (hs : s ≠ "") :
    r₁.job_title = "Unknown Role" ∧ r₂.job_title = "Unknown Role" ∧ r₃.job_title = s := by
  have e₁ := inserted_row_title extract upstream parseJson nextId file jd none r₁ h₁
  have e₂ := inserted_row_title extract upstream parseJson nextId file jd (some "") r₂ h₂
  have e₃ := inserted_row_title extract upstream parseJson nextId file jd (some s) r₃ h₃
  have hse : s.isEmpty = false := by
    rw [Bool.eq_false_iff]
    intro hse
    exact hs ((String.isEmpty_iff s).mp hse)
  refine ⟨by rw [e₁]; rfl, by rw [e₂]; rfl, ?_⟩
  rw [e₃]
  simp [jsOr, hse]

/-- Witness for C10: one successful run for each jobTitle shape. -/
theorem job_title_default_and_verbatim_witness :
    ("Data Engineer" : String) ≠ ""
    ∧ (InsertedRow.job_title ⟨"Unknown Role", some (JVal.jnum 80), "sql"⟩ = "Unknown Role"
      ∧ InsertedRow.job_title ⟨"Unknown Role", some (JVal.jnum 80), "sql"⟩ = "Unknown Role"
      ∧ InsertedRow.job_title ⟨"Data Engineer", some (JVal.jnum 80), "sql"⟩ = "Data Engineer") := by
  have hmem₁ : (⟨"Unknown Role", some (JVal.jnum 80), "sql"⟩ : InsertedRow) ∈
      (handleAnalyze stubExtract stubUpstreamOk (stubParse goodAnalysis) 7
        (some "pdf") (some "jd") none).inserted := by
    have h : (handleAnalyze stubExtract stubUpstreamOk (stubParse goodAnalysis) 7
        (some "pdf") (some "jd") none).inserted
        = [⟨"Unknown Role", some (JVal.jnum 80), "sql"⟩] := rfl
    rw [h]
    exact List.mem_singleton.mpr rfl
  have hmem₂ : (⟨"Unknown Role", some (JVal.jnum 80), "sql"⟩ : InsertedRow) ∈
      (handleAnalyze stubExtract stubUpstreamOk (stubParse goodAnalysis) 7
        (some "pdf") (some "jd") (some "")).inserted := by
    have h : (handleAnalyze stubExtract stubUpstreamOk (stubParse goodAnalysis) 7
        (some "pdf") (some "jd") (some "")).inserted
        = [⟨"Unknown Role", some (JVal.jnum 80), "sql"⟩] := rfl
    rw [h]
    exact List.mem_singleton.mpr rfl
  have hmem₃ : (⟨"Data Engineer", some (JVal.jnum 80), "sql"⟩ : InsertedRow) ∈
      (handleAnalyze stubExtract stubUpstreamOk (stubParse goodAnalysis) 7
        (some "pdf") (some "jd") (some "Data Engineer")).inserted := by
    have h : (handleAnalyze stubExtract stubUpstreamOk (stubParse goodAnalysis) 7
        (some "pdf") (some "jd") (some "Data Engineer")).inserted
        = [⟨"Data Engineer", some (JVal.jnum 80), "sql"⟩] := rfl
    rw [h]
    exact List.mem_singleton.mpr rfl
  exact ⟨by decide,
    job_title_default_and_verbatim stubExtract stubUpstreamOk (stubParse goodAnalysis) 7
      (some "pdf") (some "jd") "Data Engineer" _ _ _ hmem₁ hmem₂ hmem₃ (by decide)⟩

-- ===== §12 removeAll machinery (for C7) ==============================

theorem removeAllFuel_congr (p : List Char) :
    ∀ f₁ f₂ (s : List Char), s.length ≤ f₁ → s.length ≤ f₂ →
      removeAllFuel p f₁ s = removeAllFuel p f₂ s := by
  intro f₁
  induction f₁ with
  | zero =>
    intro f₂ s h1 _
    have hs : s = [] := List.length_eq_zero.mp (Nat.le_zero.mp h1)
    subst hs
    cases f₂ <;> rfl
  | succ f₁ ih =>
    intro f₂ s h1 h2
    cases s with
    | nil => cases f₂ <;> rfl
    | cons c rest =>
      obtain ⟨f₂', rfl⟩ : ∃ f₂', f₂ = f₂' + 1 := by
        cases f₂ with
        | zero => exact absurd h2 (by simp)
        | succ f => exact ⟨f, rfl⟩
      simp only [removeAllFuel]
      by_cases hcond : (p.isPrefixOf (c :: rest) && !p.isEmpty) = true
      · rw [if_pos hcond, if_pos hcond]
        have hp1 : 1 ≤ p.length := by
          cases p with
          | nil => exact absurd hcond (by simp)
          | cons a p' => simp
        have hlen : ((c :: rest).drop p.length).length ≤ f₁ := by
          rw [List.length_drop]
          simp only [List.length_cons]
          simp only [List.length_cons] at h1
          omega
        have hlen2 : ((c :: rest).drop p.length).length ≤ f₂' := by
          rw [List.length_drop]
          simp only [List.length_cons]
          simp only [List.length_cons] at h2
          omega
        exact ih f₂' _ hlen hlen2
      · rw [if_neg hcond, if_neg hcond]
        have hr1 : rest.length ≤ f₁ := by
          simp only [List.length_cons] at h1
          omega
        have hr2 : rest.length ≤ f₂' := by
          simp only [List.length_cons] at h2
          omega
        rw [ih f₂' rest hr1 hr2]

theorem removeAll_nil (p : List Char) : removeAll p [] = [] := rfl

theorem removeAll_cons (p : List Char) (c : Char) (rest : List Char) :
    removeAll p (c :: rest) =
      if p.isPrefixOf (c :: rest) && !p.isEmpty then removeAll p ((c :: rest).drop p.length)
      else c :: removeAll p rest := by
  show removeAllFuel p (rest.length + 1) (c :: rest) = _
  simp only [removeAllFuel]
  by_cases hcond : (p.isPrefixOf (c :: rest) && !p.isEmpty) = true
  · rw [if_pos hcond, if_pos hcond]
    have hp1 : 1 ≤ p.length := by
      cases p with
      | nil => exact absurd hcond (by simp)
      | cons a p' => simp
    refine removeAllFuel_congr p rest.length _ _ ?_ (le_refl _)
    rw [List.length_drop]
    simp only [List.length_cons]
    omega
  · rw [if_neg hcond, if_neg hcond]
    rfl

theorem isPrefixOf_length_le (p s : List Char) (h : p.isPrefixOf s = true) :
    p.length ≤ s.length := by
  obtain ⟨t, rfl⟩ := (isPrefixOf_iff_ex p s).mp h
  rw [List.length_append]
  omega

theorem isPrefixOf_extend (p A B : List Char) (h : p.isPrefixOf A = true) :
    p.isPrefixOf (A ++ B) = true := by
  obtain ⟨t, rfl⟩ := (isPrefixOf_iff_ex p A).mp h
  exact (isPrefixOf_iff_ex p _).mpr ⟨t ++ B, by rw [List.append_assoc]⟩

theorem take_append_le (n : Nat) (A B : List Char) (h : n ≤ A.length) :
    (A ++ B).take n = A.take n := by
  rw [List.take_append_eq_append_take, Nat.sub_eq_zero_of_le h, List.take_zero,
    List.append_nil]

theorem drop_append_le (n : Nat) (A B : List Char) (h : n ≤ A.length) :
    (A ++ B).drop n = A.drop n ++ B := by
  rw [List.drop_append_eq_append_drop, Nat.sub_eq_zero_of_le h, List.drop_zero]

theorem isPrefixOf_append_left (p A B : List Char) (h : p.isPrefixOf (A ++ B) = true)
    (hlen : p.length ≤ A.length) : p.isPrefixOf A = true := by
  obtain ⟨t, ht⟩ := (isPrefixOf_iff_ex p (A ++ B)).mp h
  have h1 : (A ++ B).take p.length = p := by
    rw [ht]
    exact List.take_left p t
  rw [take_append_le p.length A B hlen] at h1
  refine (isPrefixOf_iff_ex p A).mpr ⟨A.drop p.length, ?_⟩
  conv_lhs => rw [← List.take_append_drop p.length A]
  rw [h1]

theorem removeAll_match_step (p s : List Char) (hp : p ≠ []) (h : p.isPrefixOf s = true) :
    removeAll p s = removeAll p (s.drop p.length) := by
  cases s with
  | nil =>
    have := isPrefixOf_length_le p [] h
    cases p with
    | nil => exact absurd rfl hp
    | cons a p' => simp at this
  | cons c rest =>
    have hne : (!p.isEmpty) = true := by
      cases p with
      | nil => exact absurd rfl hp
      | cons a p' => rfl
    have hcond : (p.isPrefixOf (c :: rest) && !p.isEmpty) = true := by
      rw [Bool.and_eq_true]
      exact ⟨h, hne⟩
    rw [removeAll_cons, if_pos hcond]

theorem removeAll_nomatch_step (p : List Char) (c : Char) (rest : List Char)
    (h : ¬ p.isPrefixOf (c :: rest) = true) :
    removeAll p (c :: rest) = c :: removeAll p rest := by
  rw [removeAll_cons, if_neg]
  intro hc
  exact h ((Bool.and_eq_true _ _).mp hc).1

theorem removeAll_prepend_match (p l : List Char) (hp : p ≠ []) :
    removeAll p (p ++ l) = removeAll p l := by
  have hpre : p.isPrefixOf (p ++ l) = true := (isPrefixOf_iff_ex p _).mpr ⟨l, rfl⟩
  rw [removeAll_match_step p (p ++ l) hp hpre, List.drop_left]

theorem removeAll_append_of_nospan (p tail : List Char) (hp : p ≠ [])
    (hspan : ∀ l : List Char, l.length < p.length → p.isPrefixOf (l ++ tail) = false)
    (htail : removeAll p tail = tail) :
    ∀ l, removeAll p (l ++ tail) = removeAll p l ++ tail := by
  have hp1 : 1 ≤ p.length := by
    cases p with
    | nil => exact absurd rfl hp
    | cons a p' => simp
  have main : ∀ n, ∀ l : List Char, l.length ≤ n →
      removeAll p (l ++ tail) = removeAll p l ++ tail := by
    intro n
    induction n with
    | zero =>
      intro l hl
      have hnil : l = [] := List.length_eq_zero.mp (Nat.le_zero.mp hl)
      subst hnil
      simpa using htail
    | succ n ih =>
      intro l hl
      cases l with
      | nil => simpa using htail
      | cons c rest =>
        by_cases h1 : p.isPrefixOf (c :: rest) = true
        · have h1' : p.isPrefixOf ((c :: rest) ++ tail) = true := isPrefixOf_extend p _ tail h1
          have hlen : p.length ≤ (c :: rest).length := isPrefixOf_length_le p _ h1
          rw [removeAll_match_step p ((c :: rest) ++ tail) hp h1',
            removeAll_match_step p (c :: rest) hp h1,
            drop_append_le p.length (c :: rest) tail hlen]
          refine ih _ ?_
          rw [List.length_drop]
          simp only [List.length_cons]
          simp only [List.length_cons] at hl
          omega
        · by_cases h2 : p.isPrefixOf ((c :: rest) ++ tail) = true
          · exfalso
            by_cases hlen : p.length ≤ (c :: rest).length
            · exact h1 (isPrefixOf_append_left p (c :: rest) tail h2 hlen)
            · have hf := hspan (c :: rest) (by omega)
              rw [hf] at h2
              exact Bool.noConfusion h2
          · have h2' : ¬ p.isPrefixOf (c :: (rest ++ tail)) = true := h2
            rw [List.cons_append, removeAll_nomatch_step p c (rest ++ tail) h2',
              removeAll_nomatch_step p c rest h1]
            rw [ih rest (by simp only [List.length_cons] at hl; omega)]
            rfl
  intro l
  exact main l.length l (le_refl _)

theorem nospan_ws (p : List Char) (_hp : p ≠ []) (hnp : ∀ x ∈ p, isWsChar x = false)
    (ws : List Char) (hws : ∀ x ∈ ws, isWsChar x = true) :
    ∀ l : List Char, l.length < p.length → p.isPrefixOf (l ++ ws) = false := by
  intro l hl
  cases hb : p.isPrefixOf (l ++ ws) with
  | false => rfl
  | true =>
    exfalso
    obtain ⟨t, ht⟩ := (isPrefixOf_iff_ex p (l ++ ws)).mp hb
    have hdr : ws = p.drop l.length ++ t := by
      have hh := congrArg (List.drop l.length) ht
      rw [List.drop_left, drop_append_le l.length p t (by omega)] at hh
      exact hh
    have hne : p.drop l.length ≠ [] := by
      intro he
      have hlen := congrArg List.length he
      rw [List.length_drop] at hlen
      simp at hlen
      omega
    obtain ⟨e, d', hd⟩ : ∃ e d', p.drop l.length = e :: d' := by
      cases hpd : p.drop l.length with
      | nil => exact absurd hpd hne
      | cons e d' => exact ⟨e, d', rfl⟩
    have hep : e ∈ p := List.drop_subset l.length p (hd ▸ List.mem_cons_self e d')
    have hew : e ∈ ws := by
      rw [hdr, hd]
      exact List.mem_cons_self e (d' ++ t)
    have hcontra := hnp e hep
    rw [hws e hew] at hcontra
    exact Bool.noConfusion hcontra

theorem nospan_fence :
    ∀ l : List Char, l.length < fenceTag.length →
      fenceTag.isPrefixOf (l ++ fenceMarks) = false := by
  intro l hl
  have h7 : fenceTag.length = 7 := rfl
  have h3 : fenceMarks.length = 3 := rfl
  cases hb : fenceTag.isPrefixOf (l ++ fenceMarks) with
  | false => rfl
  | true =>
    exfalso
    obtain ⟨t, ht⟩ := (isPrefixOf_iff_ex fenceTag (l ++ fenceMarks)).mp hb
    have hlen := congrArg List.length ht
    rw [List.length_append, List.length_append, h3, h7] at hlen
    have hge : 4 ≤ l.length := by omega
    have hdr := congrArg (List.drop l.length) ht
    rw [List.drop_left, drop_append_le l.length fenceTag t (by omega)] at hdr
    have hcase : l.length = 4 ∨ l.length = 5 ∨ l.length = 6 := by
      rw [h7] at hl
      omega
    rcases hcase with h | h | h <;> rw [h] at hdr
    · have hdr' : ('`' :: '`' :: '`' :: ([] : List Char)) = 's' :: ('o' :: 'n' :: t) := hdr
      injection hdr' with h1 _
      exact absurd h1 (by decide)
    · have hdr' : ('`' :: '`' :: '`' :: ([] : List Char)) = 'o' :: ('n' :: t) := hdr
      injection hdr' with h1 _
      exact absurd h1 (by decide)
    · have hdr' : ('`' :: '`' :: '`' :: ([] : List Char)) = 'n' :: t := hdr
      injection hdr' with h1 _
      exact absurd h1 (by decide)

theorem removeAll_tag_append (l : List Char) :
    removeAll fenceTag (l ++ fenceMarks) = removeAll fenceTag l ++ fenceMarks :=
  removeAll_append_of_nospan fenceTag fenceMarks (by decide) nospan_fence (by decide) l

theorem removeAll_marks_append :
    ∀ u, removeAll fenceMarks (u ++ fenceMarks) = removeAll fenceMarks u := by
  have h3 : fenceMarks.length = 3 := rfl
  have main : ∀ n, ∀ u : List Char, u.length ≤ n →
      removeAll fenceMarks (u ++ fenceMarks) = removeAll fenceMarks u := by
    intro n
    induction n with
    | zero =>
      intro u hu
      have hnil : u = [] := List.length_eq_zero.mp (Nat.le_zero.mp hu)
      subst hnil
      decide
    | succ n ih =>
      intro u hu
      cases u with
      | nil => decide
      | cons c rest =>
        by_cases h1 : fenceMarks.isPrefixOf (c :: rest) = true
        · have h1' : fenceMarks.isPrefixOf ((c :: rest) ++ fenceMarks) = true :=
            isPrefixOf_extend fenceMarks _ fenceMarks h1
          have hlen : fenceMarks.length ≤ (c :: rest).length :=
            isPrefixOf_length_le fenceMarks _ h1
          rw [removeAll_match_step fenceMarks ((c :: rest) ++ fenceMarks) (by decide) h1',
            removeAll_match_step fenceMarks (c :: rest) (by decide) h1,
            drop_append_le fenceMarks.length (c :: rest) fenceMarks hlen]
          refine ih _ ?_
          rw [List.length_drop]
          simp only [List.length_cons]
          simp only [List.length_cons] at hu
          rw [h3]
          omega
        · by_cases h2 : fenceMarks.isPrefixOf ((c :: rest) ++ fenceMarks) = true
          · have hlt : (c :: rest).length < fenceMarks.length := by
              by_contra hge
              exact h1 (isPrefixOf_append_left fenceMarks (c :: rest) fenceMarks h2 (by omega))
            obtain ⟨t, ht⟩ := (isPrefixOf_iff_ex fenceMarks ((c :: rest) ++ fenceMarks)).mp h2
            cases rest with
            | nil =>
              have ht' : (c :: '`' :: '`' :: '`' :: ([] : List Char))
                  = '`' :: ('`' :: ('`' :: t)) := ht
              injection ht' with hc _
              subst hc
              decide
            | cons d rest2 =>
              cases rest2 with
              | nil =>
                have ht' : (c :: d :: '`' :: '`' :: '`' :: ([] : List Char))
                    = '`' :: ('`' :: ('`' :: t)) := ht
                injection ht' with hc ht1
                injection ht1 with hd _
                subst hc
                subst hd
                decide
              | cons e rest3 =>
                exfalso
                rw [h3] at hlt
                simp only [List.length_cons] at hlt
                omega
          · have h2' : ¬ fenceMarks.isPrefixOf (c :: (rest ++ fenceMarks)) = true := h2
            rw [List.cons_append, removeAll_nomatch_step fenceMarks c (rest ++ fenceMarks) h2',
              removeAll_nomatch_step fenceMarks c rest h1,
              ih rest (by simp only [List.length_cons] at hu; omega)]
  intro u
  exact main u.length u (le_refl _)

-- ===== §13 trim machinery and the fence identity (for C7) ============

theorem removeAll_allws (p : List Char) (hp : ∃ c p', p = c :: p' ∧ isWsChar c = false) :
    ∀ ws, (∀ x ∈ ws, isWsChar x = true) → removeAll p ws = ws := by
  obtain ⟨c, p', rfl, hc⟩ := hp
  intro ws
  induction ws with
  | nil => intro _; rfl
  | cons w ws' ih =>
    intro hws
    have hw : isWsChar w = true := hws w (List.mem_cons_self w ws')
    have hne : (c == w) = false := by
      refine beq_eq_false_iff_ne.mpr ?_
      intro he
      rw [he, hw] at hc
      exact Bool.noConfusion hc
    have hpre : ¬ (c :: p').isPrefixOf (w :: ws') = true := by
      show ¬ ((c == w) && p'.isPrefixOf ws') = true
      rw [hne, Bool.false_and]
      exact Bool.noConfusion
    rw [removeAll_nomatch_step (c :: p') w ws' hpre,
      ih (fun x hx => hws x (List.mem_cons_of_mem w hx))]

theorem removeAll_ws_prefix (p : List Char) (hp : ∃ c p', p = c :: p' ∧ isWsChar c = false) :
    ∀ ws l, (∀ x ∈ ws, isWsChar x = true) → removeAll p (ws ++ l) = ws ++ removeAll p l := by
  obtain ⟨c, p', rfl, hc⟩ := hp
  intro ws
  induction ws with
  | nil => intro l _; rfl
  | cons w ws' ih =>
    intro l hws
    have hw : isWsChar w = true := hws w (List.mem_cons_self w ws')
    have hne : (c == w) = false := by
      refine beq_eq_false_iff_ne.mpr ?_
      intro he
      rw [he, hw] at hc
      exact Bool.noConfusion hc
    have hpre : ¬ (c :: p').isPrefixOf (w :: (ws' ++ l)) = true := by
      show ¬ ((c == w) && p'.isPrefixOf (ws' ++ l)) = true
      rw [hne, Bool.false_and]
      exact Bool.noConfusion
    rw [List.cons_append, removeAll_nomatch_step (c :: p') w (ws' ++ l) hpre,
      ih l (fun x hx => hws x (List.mem_cons_of_mem w hx))]
    rfl

theorem dropWhile_ws_append (ws Y : List Char) (h : ∀ x ∈ ws, isWsChar x = true) :
    (ws ++ Y).dropWhile isWsChar = Y.dropWhile isWsChar := by
  induction ws with
  | nil => rfl
  | cons w ws' ih =>
    have hw : isWsChar w = true := h w (List.mem_cons_self w ws')
    rw [List.cons_append, List.dropWhile_cons, hw]
    simp only [if_true]
    exact ih (fun x hx => h x (List.mem_cons_of_mem w hx))

theorem dropWhile_append_of_ne_nil (Y ws : List Char) (hY : Y.dropWhile isWsChar ≠ []) :
    (Y ++ ws).dropWhile isWsChar = Y.dropWhile isWsChar ++ ws := by
  induction Y with
  | nil => exact absurd rfl hY
  | cons a Y' ih =>
    by_cases ha : isWsChar a = true
    · rw [List.cons_append, List.dropWhile_cons, ha]
      simp only [if_true]
      rw [List.dropWhile_cons, ha] at hY
      simp only [if_true] at hY
      have := ih hY
      rw [this, List.dropWhile_cons, ha]
      simp only [if_true]
    · have ha' : isWsChar a = false := by
        cases hv : isWsChar a with
        | false => rfl
        | true => exact absurd hv ha
      rw [List.cons_append, List.dropWhile_cons, ha', List.dropWhile_cons, ha']
      simp only [Bool.false_eq_true, if_false]
      rfl

theorem trimBoth_ws_left (ws Y : List Char) (h : ∀ x ∈ ws, isWsChar x = true) :
    trimBoth (ws ++ Y) = trimBoth Y := by
  unfold trimBoth
  rw [dropWhile_ws_append ws Y h]

theorem trimBoth_ws_right (Y ws : List Char) (h : ∀ x ∈ ws, isWsChar x = true) :
    trimBoth (Y ++ ws) = trimBoth Y := by
  unfold trimBoth
  by_cases hY : Y.dropWhile isWsChar = []
  · have hYall : ∀ x ∈ Y, isWsChar x = true := by
      intro x hx
      exact List.dropWhile_eq_nil_iff.mp hY x hx
    have hAll : ∀ x ∈ Y ++ ws, isWsChar x = true := by
      intro x hx
      rcases List.mem_append.mp hx with h1 | h1
      · exact hYall x h1
      · exact h x h1
    rw [List.dropWhile_eq_nil_iff.mpr hAll, hY]
  · rw [dropWhile_append_of_ne_nil Y ws hY, List.reverse_append,
      dropWhile_ws_append ws.reverse (Y.dropWhile isWsChar).reverse
        (fun x hx => h x (List.mem_reverse.mp hx))]

theorem trim_decomp (s : List Char) :
    ∃ ws₁ ws₂, (∀ x ∈ ws₁, isWsChar x = true) ∧ (∀ x ∈ ws₂, isWsChar x = true) ∧
      s = ws₁ ++ trimBoth s ++ ws₂ := by
  refine ⟨s.takeWhile isWsChar,
    ((s.dropWhile isWsChar).reverse.takeWhile isWsChar).reverse, ?_, ?_, ?_⟩
  · intro x hx
    exact List.mem_takeWhile_imp hx
  · intro x hx
    exact List.mem_takeWhile_imp (List.mem_reverse.mp hx)
  · rw [List.append_assoc]
    conv_lhs => rw [← List.takeWhile_append_dropWhile isWsChar s]
    congr 1
    conv_lhs => rw [← List.reverse_reverse (s.dropWhile isWsChar),
      ← List.takeWhile_append_dropWhile isWsChar (s.dropWhile isWsChar).reverse]
    rw [List.reverse_append]
    rfl

theorem trimBoth_keep_ends (c d : Char) (mid : List Char)
    (hc : isWsChar c = false) (hd : isWsChar d = false) :
    trimBoth (c :: (mid ++ [d])) = c :: (mid ++ [d]) := by
  unfold trimBoth
  have e : (c :: (mid ++ [d])).reverse = d :: (mid.reverse ++ [c]) := by
    rw [List.reverse_cons, List.reverse_append]
    rfl
  rw [List.dropWhile_cons, hc]
  simp only [Bool.false_eq_true, if_false]
  rw [e, List.dropWhile_cons, hd]
  simp only [Bool.false_eq_true, if_false]
  rw [← e, List.reverse_reverse]

theorem trimBoth_fenced (j : List Char) : trimBoth (fenced j) = fenced j := by
  have h : fenced j = '`' :: ((['`', '`', 'j', 's', 'o', 'n'] ++ j ++ ['`', '`']) ++ ['`']) := by
    show (['`', '`', '`', 'j', 's', 'o', 'n'] ++ j) ++ ['`', '`', '`'] = _
    simp [List.append_assoc]
  rw [h, trimBoth_keep_ends '`' '`' _ (by decide) (by decide)]

theorem stripFences_ws (ws₁ t ws₂ : List Char)
    (h1 : ∀ x ∈ ws₁, isWsChar x = true) (h2 : ∀ x ∈ ws₂, isWsChar x = true) :
    stripFences (ws₁ ++ t ++ ws₂) = ws₁ ++ stripFences t ++ ws₂ := by
  unfold stripFences
  have hpTag : ∃ c p', fenceTag = c :: p' ∧ isWsChar c = false := ⟨'`', _, rfl, by decide⟩
  have hpMarks : ∃ c p', fenceMarks = c :: p' ∧ isWsChar c = false := ⟨'`', _, rfl, by decide⟩
  have hTag : removeAll fenceTag (ws₁ ++ t ++ ws₂)
      = ws₁ ++ (removeAll fenceTag t ++ ws₂) := by
    rw [List.append_assoc, removeAll_ws_prefix fenceTag hpTag ws₁ (t ++ ws₂) h1,
      removeAll_append_of_nospan fenceTag ws₂ (by decide)
        (nospan_ws fenceTag (by decide) (by decide) ws₂ h2)
        (removeAll_allws fenceTag hpTag ws₂ h2) t]
  rw [hTag, removeAll_ws_prefix fenceMarks hpMarks ws₁ (removeAll fenceTag t ++ ws₂) h1,
    removeAll_append_of_nospan fenceMarks ws₂ (by decide)
      (nospan_ws fenceMarks (by decide) (by decide) ws₂ h2)
      (removeAll_allws fenceMarks hpMarks ws₂ h2) (removeAll fenceTag t),
    List.append_assoc]

theorem stripFences_fenced (j : List Char) : stripFences (fenced j) = stripFences j := by
  unfold stripFences fenced
  rw [List.append_assoc, removeAll_prepend_match fenceTag (j ++ fenceMarks) (by decide),
    removeAll_tag_append j, removeAll_marks_append (removeAll fenceTag j)]

-- ===== §14 Claim C7 ==================================================

/-- C7: for every response text j, wrapping it in markdown code-fence
    markers (```json before, ``` after) does not change what the handler
    hands to JSON.parse up to surrounding whitespace: every parse function
    that is insensitive to surrounding whitespace (as JSON.parse is) returns
    identical results on the cleaned fenced response and the cleaned bare
    response, so the parsed AnalysisResult is identical with and without
    fences. -/
theorem fenced_json_parses_identically {α : Type} (parse : List Char → α)
    (hws : ∀ s, parse (trimBoth s) = parse s) (j : List Char) :
    parse (pipelineProcess (fenced j)) = parse (pipelineProcess j) := by
  unfold pipelineProcess
  rw [trimBoth_fenced, stripFences_fenced]
  obtain ⟨ws₁, ws₂, h1, h2, hdec⟩ := trim_decomp j
  calc parse (stripFences j)
      = parse (trimBoth (stripFences j)) := (hws _).symm
    _ = parse (trimBoth (stripFences (ws₁ ++ trimBoth j ++ ws₂))) := by rw [← hdec]
    _ = parse (trimBoth (ws₁ ++ stripFences (trimBoth j) ++ ws₂)) := by
          rw [stripFences_ws ws₁ (trimBoth j) ws₂ h1 h2]
    _ = parse (trimBoth (stripFences (trimBoth j) ++ ws₂)) := by
          rw [List.append_assoc, trimBoth_ws_left ws₁ (stripFences (trimBoth j) ++ ws₂) h1]
    _ = parse (trimBoth (stripFences (trimBoth j))) := by
          rw [trimBoth_ws_right (stripFences (trimBoth j)) ws₂ h2]
    _ = parse (stripFences (trimBoth j)) := hws _

/-- Witness for C7: a concrete whitespace-insensitive parse function and a
    concrete JSON body. -/
theorem fenced_json_parses_identically_witness :
    (fun (_ : List Char) => (0 : Nat)) (pipelineProcess (fenced ("\x7b\"score\": 1\x7d".data)))
      = (fun (_ : List Char) => (0 : Nat)) (pipelineProcess ("\x7b\"score\": 1\x7d".data)) :=
  fenced_json_parses_identically (fun _ => (0 : Nat)) (fun _ => rfl) ("\x7b\"score\": 1\x7d".data)
